import Mathlib

/-!
Shallow embedding of the `renderer` crate (scene builder over the Vello backend).

Scalars: the crate computes with `f32`/`f64`; finite float arithmetic is idealized
as exact rationals (`ℚ`).  Where a non-finite float result matters (division by
zero in `Gradient::new_equidistant`) division is embedded as an `Option`-valued
operation, `none` standing for the non-finite result (NaN/Inf).

Modules `affine.rs`, `shapes.rs`, `colors.rs` and `text.rs` are not among the
sources; the value types they declare are modelled from the spec (each such
definition's doc comment says so).  All algorithms (`vello_backend.rs`,
`geoms.rs`, `brushes.rs`, `styles.rs`, `prerenderd_scene.rs`) are translated
from the sources.
-/

namespace Renderer

/-- Modelled from the spec: `colors.rs` is absent from the sources; RGBA color
value type (spec section 3). Components idealized as rationals. -/
structure RGBA where
  r : ℚ
  g : ℚ
  b : ℚ
  a : ℚ
deriving DecidableEq

/-- Modelled from the spec: `affine.rs` is absent from the sources; 2D affine
transform as 6 scalar coefficients (2×3 matrix), in the kurbo coefficient order
`[a, b, c, d, e, f]` (the crate's `Affine` converts to `vello::kurbo::Affine`
coefficient-for-coefficient), mapping `(x, y) ↦ (a·x + c·y + e, b·x + d·y + f)`. -/
structure Affine where
  a : ℚ
  b : ℚ
  c : ℚ
  d : ℚ
  e : ℚ
  f : ℚ
deriving DecidableEq

/-- Apply an affine transform to a point. -/
def Affine.app (t : Affine) (p : ℚ × ℚ) : ℚ × ℚ :=
  (t.a * p.1 + t.c * p.2 + t.e, t.b * p.1 + t.d * p.2 + t.f)

/-- Modelled from the spec: composition is matrix multiplication with the left
operand applied last (spec section 3): `(comp A B).app p = A.app (B.app p)`. -/
def Affine.comp (A B : Affine) : Affine :=
  ⟨A.a * B.a + A.c * B.b, A.b * B.a + A.d * B.b,
   A.a * B.c + A.c * B.d, A.b * B.c + A.d * B.d,
   A.a * B.e + A.c * B.f + A.e, A.b * B.e + A.d * B.f + A.f⟩

instance : Mul Affine := ⟨Affine.comp⟩

/-- Modelled from the spec: translation helper (spec section 4.1). -/
def Affine.translate (dx dy : ℚ) : Affine := ⟨1, 0, 0, 1, dx, dy⟩

/-- Modelled from the spec: axis-aligned scale helper (spec section 4.1). -/
def Affine.scale_xy (sx sy : ℚ) : Affine := ⟨sx, 0, 0, sy, 0, 0⟩

/-- Modelled from the spec: the identity transform (spec section 4.1). -/
def Affine.identity : Affine := ⟨1, 0, 0, 1, 0, 0⟩

/-- kurbo's `pre_translate`: the translation is applied before `t`,
i.e. `t * translate dx dy`. -/
def Affine.pre_translate (t : Affine) (dx dy : ℚ) : Affine :=
  t * Affine.translate dx dy

/-- Modelled from the spec: `shapes.rs` is absent from the sources; plain point
(spec section 3). -/
structure Point where
  x : ℚ
  y : ℚ
deriving DecidableEq

/-- Modelled from the spec: rectangle given by two opposite corners (spec
section 3). -/
structure Rectangle where
  a : Point
  b : Point
deriving DecidableEq

/-- Modelled from the spec: circle (spec section 3). -/
structure Circle where
  center : Point
  radius : ℚ
deriving DecidableEq

/-- Modelled from the spec: rounded rectangle (spec section 3). -/
structure RoundedRectangle where
  a : Point
  b : Point
  radius : ℚ
deriving DecidableEq

/-- Backend-native shapes, from the `IntoVelloShape` impls in
`vello_backend.rs` (`kurbo::Rect`, `kurbo::RoundedRect`, `kurbo::Circle`). -/
inductive VelloShape where
  | rect (x0 y0 x1 y1 : ℚ)
  | roundedRect (x0 y0 x1 y1 radius : ℚ)
  | circle (cx cy radius : ℚ)
deriving DecidableEq

/-- The `IntoVelloShape` conversion trait of `vello_backend.rs`. -/
class IntoVelloShape (S : Type) where
  intoVelloShape : S → VelloShape

instance : IntoVelloShape Rectangle :=
  ⟨fun s => .rect s.a.x s.a.y s.b.x s.b.y⟩

instance : IntoVelloShape RoundedRectangle :=
  ⟨fun s => .roundedRect s.a.x s.a.y s.b.x s.b.y s.radius⟩

instance : IntoVelloShape Circle :=
  ⟨fun s => .circle s.center.x s.center.y s.radius⟩

/-- `f32` division.  Finite results are idealized as exact rationals; `none`
models the non-finite result (NaN/Inf) a zero denominator yields in `f32`
(which is a silently propagated value in Rust, not a failure). -/
def f32div (a b : ℚ) : Option ℚ :=
  if b = 0 then none else some (a / b)

/-- `Extend` from `brushes.rs`. -/
inductive Extend where
  | Pad
  | Repeat
  | Reflect
deriving DecidableEq

/-- `ColorStop` from `brushes.rs`; the offset is an `f32`, so it is carried as
`Option ℚ` (`none` = non-finite). -/
structure ColorStop where
  offset : Option ℚ
  color : RGBA
deriving DecidableEq

/-- `GradientKind` from `brushes.rs`. -/
inductive GradientKind where
  | Linear (start stop : Point)
  | Radial (start_center : Point) (start_radius : ℚ) (end_center : Point) (end_radius : ℚ)
  | Sweep (center : Point) (start_angle end_angle : ℚ)
deriving DecidableEq

/-- `Gradient` from `brushes.rs`. -/
structure Gradient where
  extend : Extend
  kind : GradientKind
  stops : List ColorStop
deriving DecidableEq

/-- `Gradient::new_equidistant` from `brushes.rs`: enumerate the colors and map
index `i` to a stop at offset `i as f32 / (colors.len() - 1) as f32` with the
i-th color.  (With one color the divisor is `0` and the offset is the
non-finite marker; with zero colors the closure never runs.) -/
def Gradient.new_equidistant (extend : Extend) (kind : GradientKind)
    (colors : List RGBA) : Gradient :=
  { extend := extend, kind := kind,
    stops := colors.enum.map fun ic =>
      { offset := f32div (ic.1 : ℚ) ((colors.length - 1 : ℕ) : ℚ), color := ic.2 } }

/-- `Image` from `brushes.rs` (`data: T, width, height`), merged with the
backend revision's extra `gpu_texture` field (`vello_backend.rs`); the pixel
payload and GPU texture are opaque identities. -/
structure Image where
  data : ℕ
  width : ℕ
  height : ℕ
  gpu_texture : Option ℕ
deriving DecidableEq

/-- `Brush` from `brushes.rs` (`Solid`, `Gradient`, `Texture`). -/
inductive Brush where
  | Solid (color : RGBA)
  | Gradient (gradient : Gradient)
  | Texture (image : Image)
deriving DecidableEq

/-- `FillStyle` from `styles.rs`. -/
inductive FillStyle where
  | NonZero
  | EvenOdd
deriving DecidableEq

/-- `Join` from `styles.rs`. -/
inductive Join where
  | Bevel
  | Miter
  | Round
deriving DecidableEq

/-- `Cap` from `styles.rs`. -/
inductive Cap where
  | Butt
  | Square
  | Round
deriving DecidableEq

/-- `StrokeStyle` from `styles.rs` (`Dashes = Vec<[f64; 4]>`). -/
structure StrokeStyle where
  width : ℚ
  join : Join
  miter_limit : ℚ
  start_cap : Cap
  end_cap : Cap
  dash_pattern : List (ℚ × ℚ × ℚ × ℚ)
  dash_offset : ℚ
deriving DecidableEq

/-- `Style` from `styles.rs`. -/
inductive Style where
  | Fill (style : FillStyle)
  | Stroke (style : StrokeStyle)
deriving DecidableEq

/-- `ImageFitMode` from `styles.rs` (including the `Exact` variant). -/
inductive ImageFitMode where
  | Original
  | Fill
  | Exact (width height : ℚ)
deriving DecidableEq

/-- `MixMode` from `styles.rs`. -/
inductive MixMode where
  | Normal
  | Clip
  | Multiply
deriving DecidableEq

/-- `CompositeMode` from `styles.rs`. -/
inductive CompositeMode where
  | SourceOver
  | DestinationOver
  | SourceIn
  | DestinationIn
  | SourceOut
  | DestinationOut
  | SourceAtop
  | DestinationAtop
  | Lighter
  | Copy
  | Xor
deriving DecidableEq

/-- A backend-resolved color stop (`From<ColorStop> for peniko::ColorStop`). -/
structure VelloColorStop where
  offset : Option ℚ
  color : RGBA
deriving DecidableEq

/-- A backend-resolved gradient (`From<Gradient> for peniko::Gradient`). -/
structure VelloGradient where
  kind : GradientKind
  stops : List VelloColorStop
  extend : Extend
deriving DecidableEq

/-- A backend-resolved paint, the result of `Brush::as_brush_or_brushref` in
`vello_backend.rs` (`peniko::Brush`): solid color, gradient, or image (pixel
payload identity plus dimensions). -/
inductive VelloBrush where
  | solid (color : RGBA)
  | gradient (gradient : VelloGradient)
  | image (data width height : ℕ)
deriving DecidableEq

/-- `Brush::as_brush_or_brushref` from `vello_backend.rs`: solid and gradient
pass through (stops converted field-for-field); an image brush resolves to a
`peniko::Image` built from the payload and dimensions. -/
def Brush.as_brush_or_brushref : Brush → VelloBrush
  | .Solid c => .solid c
  | .Gradient g => .gradient ⟨g.kind, g.stops.map fun s => ⟨s.offset, s.color⟩, g.extend⟩
  | .Texture img => .image img.data img.width img.height

/-- A glyph handed to `draw_glyphs` (`vello::Glyph`: id, x, y). -/
structure Glyph where
  id : ℕ
  x : ℚ
  y : ℚ
deriving DecidableEq

/-- One backend-native command accumulated in the `vello::Scene`: the exact
tuple each `vello_backend.rs` call site hands to the backend. -/
inductive Cmd where
  | fill (style : FillStyle) (transform : Affine) (brush : VelloBrush)
      (brush_transform : Option Affine) (shape : VelloShape)
  | stroke (width : ℚ) (transform : Affine) (brush : VelloBrush)
      (brush_transform : Option Affine) (shape : VelloShape)
  | pushLayer (mix : MixMode) (composite : CompositeMode) (alpha : ℚ)
      (clip_transform : Affine) (clip : VelloShape)
  | popLayer
  | glyphRun (font : ℕ) (size : ℚ) (transform : Affine)
      (glyph_transform : Option Affine) (coords : List (String × ℚ))
      (color : RGBA) (glyphs : List Glyph)
  | appendScene (sub : ℕ) (transform : Option Affine)
deriving DecidableEq

/-- The transform a command hands to the backend, when it carries one. -/
def Cmd.transformOf : Cmd → Option Affine
  | .fill _ t _ _ _ => some t
  | .stroke _ t _ _ _ => some t
  | .pushLayer _ _ _ t _ => some t
  | .popLayer => none
  | .glyphRun _ _ t _ _ _ _ => some t
  | .appendScene _ t => t

/-- The variable-font coordinates a glyph-run command carries. -/
def Cmd.coordsOf : Cmd → Option (List (String × ℚ))
  | .glyphRun _ _ _ _ cs _ _ => some cs
  | _ => none

/-- The glyph list a glyph-run command carries. -/
def Cmd.glyphsOf : Cmd → Option (List Glyph)
  | .glyphRun _ _ _ _ _ _ gs => some gs
  | _ => none

/-- `VelloBackend` from `vello_backend.rs`: the accumulated `vello::Scene`
(as the list of emitted commands), the global transform, and the queued
GPU-image overrides (payload identity, texture identity). -/
structure VelloBackend where
  vello_scene : List Cmd
  global_transform : Affine
  gpu_images : List (ℕ × ℕ)
deriving DecidableEq

/-- `Scene<VelloBackend>`. -/
structure Scene where
  background_color : RGBA
  width : ℕ
  height : ℕ
  backend : VelloBackend
deriving DecidableEq

/-- `VelloBackend::new`: empty scene, global transform centered at the canvas
midpoint. -/
def VelloBackend.new (width height : ℕ) : VelloBackend :=
  { vello_scene := []
    global_transform := Affine.translate ((width : ℚ) / 2) ((height : ℚ) / 2)
    gpu_images := [] }

/-- `Scene::new` from `vello_backend.rs`. -/
def Scene.new (background_color : RGBA) (width height : ℕ) : Scene :=
  { background_color := background_color, width := width, height := height,
    backend := VelloBackend.new width height }

/-- Append one command to the backend scene. -/
def Scene.emit (scene : Scene) (cmd : Cmd) : Scene :=
  { scene with backend :=
    { scene.backend with vello_scene := scene.backend.vello_scene ++ [cmd] } }

/-- `Geom` from `geoms.rs`: style, shape, brush, object transform, and an
independent optional brush transform. -/
structure Geom (S : Type) where
  style : Style
  shape : S
  brush : Brush
  transform : Affine
  brush_transform : Option Affine

/-- `Geom::draw` from `vello_backend.rs` (lines 173–221): composes
`global_transform * self.transform`, resolves the brush, queues a GPU override
when the image brush carries a GPU texture, converts the shape, and emits one
`fill` or `stroke` command. -/
def Geom.draw {S : Type} [IntoVelloShape S] (g : Geom S) (scene : Scene) : Scene :=
  let transform := scene.backend.global_transform * g.transform
  let brush_transform := g.brush_transform
  let new_brush := g.brush.as_brush_or_brushref
  let scene :=
    match g.brush with
    | .Texture img =>
      match img.gpu_texture with
      | some tex =>
        { scene with backend :=
          { scene.backend with gpu_images := scene.backend.gpu_images ++ [(img.data, tex)] } }
      | none => scene
    | _ => scene
  let shape := IntoVelloShape.intoVelloShape g.shape
  match g.style with
  | .Fill fs => scene.emit (.fill fs transform new_brush brush_transform shape)
  | .Stroke ss => scene.emit (.stroke ss.width transform new_brush brush_transform shape)

/-- `SceneTrait::start_layer` from `vello_backend.rs`: a supplied layer
transform hits `todo!()` (a fatal abort, modelled as `none`); otherwise the
clip transform is composed with the global transform and a layer is pushed. -/
def Scene.start_layer {S : Type} [IntoVelloShape S] (scene : Scene)
    (mix_mode : MixMode) (composite_mode : CompositeMode) (clip : S)
    (clip_transform : Affine) (layer_transform : Option Affine) (alpha : ℚ) :
    Option Scene :=
  if layer_transform.isSome then none
  else
    let clip_shape := IntoVelloShape.intoVelloShape clip
    let global_transform := scene.backend.global_transform
    let ct := global_transform * clip_transform
    some (scene.emit (.pushLayer mix_mode composite_mode alpha ct clip_shape))

/-- `SceneTrait::end_layer` from `vello_backend.rs`. -/
def Scene.end_layer (scene : Scene) : Scene :=
  scene.emit .popLayer

/-- `GeomTrait::new_image` from `geoms.rs`: rectangle centered at `(x, y)`
with the given width/height; texture brush; under `Fill` the brush transform is
`scale_xy (width / org_width) (height / org_height)` followed (via `Option.map`)
by right-multiplication with `translate (x - width/2) (y - height/2)`; under
`Original` no brush transform.  The source's `match` has no arm for the `Exact`
fit mode (non-exhaustive over `styles.rs`'s `ImageFitMode`), so that case is
`none`. -/
def new_image (image : Image) (x y width height : ℚ) (transform : Affine)
    (fit_mode : ImageFitMode) : Option (Geom Rectangle) :=
  let shape : Rectangle :=
    ⟨⟨x - width / 2, y - height / 2⟩, ⟨x + width / 2, y + height / 2⟩⟩
  let org_width : ℚ := (image.width : ℚ)
  let org_height : ℚ := (image.height : ℚ)
  let brush := Brush.Texture image
  let bt0 : Option (Option Affine) :=
    match fit_mode with
    | .Original => some none
    | .Fill => some (some (Affine.scale_xy (width / org_width) (height / org_height)))
    | .Exact _ _ => none
  bt0.map fun t0 =>
    let brush_transform :=
      t0.map fun t => t * Affine.translate (x - width / 2) (y - height / 2)
    { style := Style.Fill FillStyle.NonZero, shape := shape, brush := brush,
      transform := transform, brush_transform := brush_transform }

/-- `Alignment` — modelled from the spec (`text.rs` is absent from the
sources), spec section 3. -/
inductive Alignment where
  | Left
  | Center
  | Right
deriving DecidableEq

/-- `VerticalAlignment` — modelled from the spec (`text.rs` is absent from the
sources), spec section 3. -/
inductive VerticalAlignment where
  | Top
  | Middle
  | Bottom
deriving DecidableEq

/-- The font/shaping collaborator (spec section 6): character-to-glyph map,
per-glyph advance widths, and the font-wide metrics, all already resolved for
the chosen size and variation location.  `charmapMap ch = none` models a
missing mapping (`charmap.map` returning `None`); `advance_width g = none`
models a missing advance. -/
structure FontOracle where
  charmapMap : Char → Option ℕ
  advance_width : ℕ → Option ℚ
  ascent : ℚ
  descent : ℚ
  leading : ℚ

/-- `line_height = metrics.ascent - metrics.descent + metrics.leading`
(`FormatedText::draw`, `vello_backend.rs`). -/
def lineHeight (o : FontOracle) : ℚ :=
  o.ascent - o.descent + o.leading

/-- `FormatedText` — fields modelled from the spec (`text.rs` is absent from
the sources), spec section 3; the font is an opaque identity plus the
`FontOracle` collaborator at draw time.  `weight` and `style` are carried at
arbitrary types: the draw algorithm never reads them. -/
structure FormatedText (W St : Type) where
  x : ℚ
  y : ℚ
  text : List Char
  size : ℚ
  color : RGBA
  weight : W
  font : ℕ
  style : St
  alignment : Alignment
  vertical_alignment : VerticalAlignment
  transform : Affine
  glyph_transform : Option Affine

/-- The glyph walk of `FormatedText::draw` (`vello_backend.rs`): newline resets
`pen_x` to 0, advances `pen_y` by the line height and emits nothing; any other
character maps to a glyph id (`unwrap_or_default`: missing mapping → id 0), is
emitted at the current pen, and advances `pen_x` by its advance width
(`unwrap_or_default`: missing advance → 0).  Returns the glyphs and the final
pen. -/
def glyphWalk (o : FontOracle) (lh : ℚ) :
    List Char → ℚ → ℚ → List Glyph × ℚ × ℚ
  | [], pen_x, pen_y => ([], pen_x, pen_y)
  | ch :: rest, pen_x, pen_y =>
    if ch = '\n' then
      glyphWalk o lh rest 0 (pen_y + lh)
    else
      let gid := (o.charmapMap ch).getD 0
      let adv := (o.advance_width gid).getD 0
      let r := glyphWalk o lh rest (pen_x + adv) pen_y
      (⟨gid, pen_x, pen_y⟩ :: r.1, r.2)

/-- The full layout of a `FormatedText`: the walk starting at
`(self.x * 2.0, self.y * 2.0)` (`vello_backend.rs` lines 536–537). -/
def textLayout {W St : Type} (o : FontOracle) (t : FormatedText W St) :
    List Glyph × ℚ × ℚ :=
  glyphWalk o (lineHeight o) t.text (t.x * 2) (t.y * 2)

/-- The horizontal alignment correction of `FormatedText::draw`. -/
def alignOffsetX : Alignment → ℚ → ℚ
  | .Left, _ => 0
  | .Center, w => -w / 2
  | .Right, w => -w

/-- The vertical alignment correction of `FormatedText::draw`. -/
def alignOffsetY : VerticalAlignment → ℚ → ℚ
  | .Top, _ => 0
  | .Middle, h => h / 2
  | .Bottom, h => h

/-- The hard-coded variable-font axes of `FormatedText::draw`
(`vello_backend.rs` line 527). -/
def variations : List (String × ℚ) :=
  [("wght", 100), ("wdth", 500)]

/-- `FormatedText::draw` from `vello_backend.rs`: composes
`self.transform * global_transform`, lays the text out from the doubled start
position, applies the alignment correction as a pre-translate, and emits one
glyph-run command. -/
def FormatedText.draw {W St : Type} (t : FormatedText W St) (o : FontOracle)
    (scene : Scene) : Scene :=
  let transform := t.transform * scene.backend.global_transform
  let r := textLayout o t
  let glyphs := r.1
  let text_width := r.2.1
  let text_height := r.2.2 + lineHeight o
  let transform := transform.pre_translate
    (alignOffsetX t.alignment text_width)
    (alignOffsetY t.vertical_alignment text_height)
  scene.emit (.glyphRun t.font t.size transform t.glyph_transform variations
    t.color glyphs)

/-- `PrerenderedScene` from `prerenderd_scene.rs`: an opaque pre-built
`vello::Scene` identity plus a transform. -/
structure PrerenderedScene where
  scene : ℕ
  transform : Affine
deriving DecidableEq

/-- `Drawable for &PrerenderedScene` from `vello_backend.rs`: composes
`self.transform * global_transform` and appends the sub-scene under it. -/
def PrerenderedScene.draw (p : PrerenderedScene) (scene : Scene) : Scene :=
  let global_transform := scene.backend.global_transform
  let transform := p.transform * global_transform
  scene.emit (.appendScene p.scene (some transform))

/-! Concrete values used by counterexamples and witnesses. -/

/-- A sample color. -/
def colorA : RGBA := ⟨1, 0, 0, 1⟩

/-- A sample color. -/
def colorB : RGBA := ⟨0, 1, 0, 1⟩

/-- A sample color. -/
def colorC : RGBA := ⟨0, 0, 1, 1⟩

/-- A sample gradient kind. -/
def kindEx : GradientKind := .Linear ⟨0, 0⟩ ⟨1, 0⟩

/-- A 2×2 image with no GPU texture. -/
def imgEx : Image := ⟨0, 2, 2, none⟩

/-- A scene whose global transform is `translate 1 0`. -/
def sceneEx : Scene :=
  { background_color := ⟨0, 0, 0, 1⟩, width := 2, height := 0,
    backend := { vello_scene := [], global_transform := Affine.translate 1 0,
                 gpu_images := [] } }

/-- A prerendered sub-scene with local transform `scale_xy 2 1`. -/
def prerenderedEx : PrerenderedScene := ⟨0, Affine.scale_xy 2 1⟩

/-- A stroke style of width 1 with default-ish parameters. -/
def strokeEx : StrokeStyle := ⟨1, .Miter, 4, .Butt, .Butt, [], 0⟩

/-- A stroked, image-brushed unit-square geometry. -/
def geomStrokeImageEx : Geom Rectangle :=
  { style := .Stroke strokeEx, shape := ⟨⟨0, 0⟩, ⟨1, 1⟩⟩,
    brush := .Texture imgEx, transform := Affine.identity,
    brush_transform := none }

/-- A font oracle: only `A` is mapped (to glyph 7, advance 10);
metrics give line height `11`. -/
def oracleEx : FontOracle :=
  { charmapMap := fun ch => if ch = 'A' then some 7 else none
    advance_width := fun g => if g = 7 then some 10 else none
    ascent := 8, descent := -2, leading := 1 }

/-- A sample formatted text: `"A"` at `(3, 5)`, left/top aligned. -/
def textEx : FormatedText Unit Unit :=
  { x := 3, y := 5, text := ['A'], size := 12, color := colorA, weight := (),
    font := 0, style := (), alignment := .Left, vertical_alignment := .Top,
    transform := Affine.identity, glyph_transform := none }

/-! Helper lemmas shared between claims. -/

theorem emit_vello_scene (s : Scene) (c : Cmd) :
    (s.emit c).backend.vello_scene = s.backend.vello_scene ++ [c] := rfl

theorem emit_getLast (s : Scene) (c : Cmd) :
    (s.emit c).backend.vello_scene.getLast? = some c := by
  rw [emit_vello_scene, List.getLast?_append_cons]
  rfl

theorem comp_app (A B : Affine) (p : ℚ × ℚ) :
    (A * B).app p = A.app (B.app p) := by
  show (A.comp B).app p = A.app (B.app p)
  simp only [Affine.comp, Affine.app, Prod.mk.injEq]
  constructor <;> ring

/-- C1 (counterexample): the claim that every drawable kind hands the backend
`global_transform ∘ local_transform` fails: drawing a concrete
`PrerenderedScene` with local transform `scale_xy 2 1` into a scene whose
global transform is `translate 1 0` hands the backend
`local * global`, which differs from `global * local`. -/
theorem c1_uniform_compose_cex :
    (prerenderedEx.draw sceneEx).backend.vello_scene =
      [Cmd.appendScene 0 (some (Affine.scale_xy 2 1 * Affine.translate 1 0))] ∧
    Affine.scale_xy 2 1 * Affine.translate 1 0 ≠
      Affine.translate 1 0 * Affine.scale_xy 2 1 := by
  constructor
  · rfl
  · intro h
    have he : ((Affine.scale_xy 2 1).comp (Affine.translate 1 0)).e =
        ((Affine.translate 1 0).comp (Affine.scale_xy 2 1)).e := congrArg Affine.e h
    norm_num [Affine.comp, Affine.scale_xy, Affine.translate] at he

/-- C1 (amended): the composition order is not uniform across drawable kinds:
`Geom::draw` hands the backend `global_transform * local_transform`, while
`FormatedText::draw` hands `(local_transform * global_transform)` pre-translated
by the alignment correction, and `PrerenderedScene::draw` hands
`local_transform * global_transform` (the global transform applied after the
local one only for `Geom`). -/
theorem c1_compose_order :
    (∀ {S : Type} [IntoVelloShape S] (g : Geom S) (scene : Scene),
      (g.draw scene).backend.vello_scene.getLast?.bind Cmd.transformOf =
        some (scene.backend.global_transform * g.transform)) ∧
    (∀ {W St : Type} (t : FormatedText W St) (o : FontOracle) (scene : Scene),
      (t.draw o scene).backend.vello_scene.getLast?.bind Cmd.transformOf =
        some ((t.transform * scene.backend.global_transform).pre_translate
          (alignOffsetX t.alignment (textLayout o t).2.1)
          (alignOffsetY t.vertical_alignment ((textLayout o t).2.2 + lineHeight o)))) ∧
    (∀ (p : PrerenderedScene) (scene : Scene),
      (p.draw scene).backend.vello_scene.getLast?.bind Cmd.transformOf =
        some (p.transform * scene.backend.global_transform)) := by
  refine ⟨fun g scene => ?_, fun t o scene => ?_, fun p scene => ?_⟩
  · cases hs : g.style <;> cases hb : g.brush <;>
      simp [Geom.draw, hs, hb, emit_getLast, Cmd.transformOf]
  · simp [FormatedText.draw, emit_getLast, Cmd.transformOf]
  · simp [PrerenderedScene.draw, emit_getLast, Cmd.transformOf]

/-- C2 (code bug): under `Fill`, `new_image` composes
`scale * translate` — the re-centering translation is applied *before* the
scale — so the image corner `(0, 0)` of a 2×2 image stretched onto the 4×4
rectangle centered at the origin lands at `(-4, -4)`, not at the rectangle's
top-left corner `(0 - 4/2, 0 - 4/2) = (-2, -2)`; the spec's order
(translate after scale) would land it at `(-2, -2)`.  Under `Original` the
brush transform is indeed absent. -/
theorem c2_fill_brush_transform_bug :
    (new_image imgEx 0 0 4 4 Affine.identity .Fill).map (fun g => g.brush_transform) =
      some (some (Affine.scale_xy 2 2 * Affine.translate (-2) (-2))) ∧
    (Affine.scale_xy 2 2 * Affine.translate (-2) (-2)).app (0, 0) = (-4, -4) ∧
    (Affine.translate (-2) (-2) * Affine.scale_xy 2 2).app (0, 0) = (-2, -2) ∧
    ((-4 : ℚ), (-4 : ℚ)) ≠ ((0 : ℚ) - 4 / 2, (0 : ℚ) - 4 / 2) ∧
    (new_image imgEx 0 0 4 4 Affine.identity .Original).map (fun g => g.brush_transform) =
      some none := by
  refine ⟨?_, ?_, ?_, ?_, rfl⟩
  · norm_num [new_image, imgEx]
  · rw [comp_app]
    norm_num [Affine.app, Affine.scale_xy, Affine.translate]
  · rw [comp_app]
    norm_num [Affine.app, Affine.scale_xy, Affine.translate]
  · norm_num [Prod.ext_iff]

/-- C3 (counterexample): `Gradient::new_equidistant` does not fail fast on
fewer than 2 colors: with a single color it returns a normally constructed
gradient whose one stop has the non-finite offset `0/0` (NaN, modelled
`none`), and with zero colors it returns a gradient with an empty stop list. -/
theorem c3_degenerate_cex :
    Gradient.new_equidistant .Pad kindEx [colorA] =
      { extend := .Pad, kind := kindEx,
        stops := [{ offset := none, color := colorA }] } ∧
    Gradient.new_equidistant .Pad kindEx ([] : List RGBA) =
      { extend := .Pad, kind := kindEx, stops := [] } := by
  constructor <;> decide

/-- C3 (amended): calling `Gradient::new_equidistant` with fewer than 2 colors
does not fail at all: for any single color the result is a normally
constructed gradient whose sole stop carries the silently propagated
non-finite offset `0/0` (NaN, modelled `none`) — neither a failure nor a
clamped value — and for the empty color list the result is a gradient with no
stops. -/
theorem c3_degenerate_no_failure (e : Extend) (k : GradientKind) (c : RGBA) :
    Gradient.new_equidistant e k [c] =
      { extend := e, kind := k, stops := [{ offset := none, color := c }] } ∧
    Gradient.new_equidistant e k [] = { extend := e, kind := k, stops := [] } := by
  constructor <;> simp [Gradient.new_equidistant, f32div, List.enum, List.enumFrom]

/-- C4: for N ≥ 2 colors `new_equidistant` stores the extend mode and kind
unchanged and produces exactly N stops, the i-th stop carrying offset
`i / (N - 1)` and the i-th input color; the offsets are non-decreasing in the
index. -/
theorem c4_equidistant_stops (e : Extend) (k : GradientKind) (colors : List RGBA)
    (h2 : 2 ≤ colors.length) :
    (Gradient.new_equidistant e k colors).extend = e ∧
    (Gradient.new_equidistant e k colors).kind = k ∧
    (Gradient.new_equidistant e k colors).stops.length = colors.length ∧
    (∀ (i : ℕ) (c : RGBA), colors[i]? = some c →
      (Gradient.new_equidistant e k colors).stops[i]? =
        some { offset := some ((i : ℚ) / ((colors.length - 1 : ℕ) : ℚ)), color := c }) ∧
    (∀ (i j : ℕ) (si sj : ColorStop), i ≤ j →
      (Gradient.new_equidistant e k colors).stops[i]? = some si →
      (Gradient.new_equidistant e k colors).stops[j]? = some sj →
      ∀ (qi qj : ℚ), si.offset = some qi → sj.offset = some qj → qi ≤ qj) := by
  have hd : ((colors.length - 1 : ℕ) : ℚ) ≠ 0 := by
    have : 0 < colors.length - 1 := by omega
    exact_mod_cast Nat.pos_iff_ne_zero.mp this
  have hdpos : (0 : ℚ) < ((colors.length - 1 : ℕ) : ℚ) := by
    exact_mod_cast (by omega : 0 < colors.length - 1)
  have hstop : ∀ (i : ℕ) (c : RGBA), colors[i]? = some c →
      (Gradient.new_equidistant e k colors).stops[i]? =
        some { offset := some ((i : ℚ) / ((colors.length - 1 : ℕ) : ℚ)), color := c } := by
    intro i c hc
    simp [Gradient.new_equidistant, List.getElem?_map, List.getElem?_enum, hc,
      f32div, hd]
  refine ⟨rfl, rfl, ?_, hstop, ?_⟩
  · simp [Gradient.new_equidistant, List.enum_length]
  · intro i j si sj hij hi hj qi qj hqi hqj
    rcases hci : colors[i]? with _ | ci
    · simp [Gradient.new_equidistant, List.getElem?_map, List.getElem?_enum, hci] at hi
    rcases hcj : colors[j]? with _ | cj
    · simp [Gradient.new_equidistant, List.getElem?_map, List.getElem?_enum, hcj] at hj
    rw [hstop i ci hci] at hi
    rw [hstop j cj hcj] at hj
    obtain rfl : si = { offset := some ((i : ℚ) / ((colors.length - 1 : ℕ) : ℚ)), color := ci } :=
      (Option.some_injective _ hi).symm
    obtain rfl : sj = { offset := some ((j : ℚ) / ((colors.length - 1 : ℕ) : ℚ)), color := cj } :=
      (Option.some_injective _ hj).symm
    obtain rfl : qi = (i : ℚ) / ((colors.length - 1 : ℕ) : ℚ) :=
      (Option.some_injective _ hqi).symm
    obtain rfl : qj = (j : ℚ) / ((colors.length - 1 : ℕ) : ℚ) :=
      (Option.some_injective _ hqj).symm
    exact div_le_div_of_nonneg_right (by exact_mod_cast hij) hdpos.le

/-- C4 witness at three colors: the middle stop sits at offset 1/2 carrying
the middle color. -/
theorem c4_equidistant_stops_witness :
    2 ≤ ([colorA, colorB, colorC] : List RGBA).length ∧
    (Gradient.new_equidistant .Pad kindEx [colorA, colorB, colorC]).stops[1]? =
      some { offset := some ((1 : ℚ) /
        ((([colorA, colorB, colorC] : List RGBA).length - 1 : ℕ) : ℚ)), color := colorB } :=
  ⟨by decide,
   (c4_equidistant_stops .Pad kindEx [colorA, colorB, colorC] (by decide)).2.2.2.1
     1 colorB (by decide)⟩

/-- C5: the text layout of `FormatedText::draw`: a newline resets the
horizontal pen to 0, advances the vertical pen by the line height
(`ascent - descent + leading`) and emits no glyph; any other character maps to
a glyph id (missing mapping → the default id 0), is emitted at the current pen,
then advances the pen by its advance width; afterwards a single corrective
pre-translate — x: 0 for Left, −width/2 for Center, −width for Right;
y: 0 for Top, +height/2 for Middle, +height for Bottom, where width is the
final pen x and height is the final pen y plus the line height — is applied to
the composed transform of the single emitted glyph run. -/
theorem c5_text_layout :
    (∀ (o : FontOracle) (lh : ℚ) (ch : Char) (cs : List Char) (px py : ℚ),
      glyphWalk o lh (ch :: cs) px py =
        if ch = '\n' then glyphWalk o lh cs 0 (py + lh)
        else
          (⟨(o.charmapMap ch).getD 0, px, py⟩ ::
            (glyphWalk o lh cs
              (px + (o.advance_width ((o.charmapMap ch).getD 0)).getD 0) py).1,
           (glyphWalk o lh cs
              (px + (o.advance_width ((o.charmapMap ch).getD 0)).getD 0) py).2)) ∧
    (∀ o : FontOracle, lineHeight o = o.ascent - o.descent + o.leading) ∧
    (∀ w h : ℚ,
      alignOffsetX .Left w = 0 ∧ alignOffsetX .Center w = -w / 2 ∧
      alignOffsetX .Right w = -w ∧ alignOffsetY .Top h = 0 ∧
      alignOffsetY .Middle h = h / 2 ∧ alignOffsetY .Bottom h = h) ∧
    (∀ {W St : Type} (t : FormatedText W St) (o : FontOracle) (scene : Scene),
      t.draw o scene = scene.emit (.glyphRun t.font t.size
        ((t.transform * scene.backend.global_transform).pre_translate
          (alignOffsetX t.alignment (textLayout o t).2.1)
          (alignOffsetY t.vertical_alignment ((textLayout o t).2.2 + lineHeight o)))
        t.glyph_transform variations t.color (textLayout o t).1)) := by
  refine ⟨fun o lh ch cs px py => ?_, fun o => rfl,
    fun w h => ⟨rfl, rfl, rfl, rfl, rfl, rfl⟩, fun t o scene => rfl⟩
  by_cases hch : ch = '\n' <;> simp [glyphWalk, hch]

/-- C6: `start_layer` with a supplied (Some) layer transform is fatal — the
call aborts (`todo!()`, modelled `none`) and is never a silent no-op; with an
absent layer transform it pushes a layer whose clip transform is the global
transform composed with the clip transform. -/
theorem c6_layer_transform_fatal {S : Type} [IntoVelloShape S] (scene : Scene)
    (mm : MixMode) (cm : CompositeMode) (clip : S) (ct : Affine) (alpha : ℚ) :
    (∀ τ : Affine, scene.start_layer mm cm clip ct (some τ) alpha = none) ∧
    scene.start_layer mm cm clip ct none alpha =
      some (scene.emit (.pushLayer mm cm alpha
        (scene.backend.global_transform * ct) (IntoVelloShape.intoVelloShape clip))) :=
  ⟨fun _ => rfl, rfl⟩

/-- C7 (counterexample): drawing a concrete Stroke-styled, image-brushed
geometry does not fail — it emits a stroked primitive carrying the image
brush. -/
theorem c7_stroke_image_cex :
    (geomStrokeImageEx.draw sceneEx).backend.vello_scene =
      [Cmd.stroke 1 (Affine.translate 1 0 * Affine.identity)
        (VelloBrush.image 0 2 2) none (VelloShape.rect 0 0 1 1)] := rfl

/-- C7 (amended): drawing a Geom with an image (texture) brush succeeds for
both styles: a Stroke style emits a stroked primitive and a Fill style emits a
filled primitive, each carrying the resolved image brush — neither is
fatal. -/
theorem c7_stroke_image_ok {S : Type} [IntoVelloShape S] (scene : Scene)
    (shape : S) (img : Image) (tr : Affine) (bt : Option Affine)
    (ss : StrokeStyle) (fs : FillStyle) :
    (Geom.draw ⟨.Stroke ss, shape, .Texture img, tr, bt⟩ scene).backend.vello_scene =
      scene.backend.vello_scene ++
        [Cmd.stroke ss.width (scene.backend.global_transform * tr)
          (.image img.data img.width img.height) bt
          (IntoVelloShape.intoVelloShape shape)] ∧
    (Geom.draw ⟨.Fill fs, shape, .Texture img, tr, bt⟩ scene).backend.vello_scene =
      scene.backend.vello_scene ++
        [Cmd.fill fs (scene.backend.global_transform * tr)
          (.image img.data img.width img.height) bt
          (IntoVelloShape.intoVelloShape shape)] := by
  constructor <;> cases htex : img.gpu_texture <;>
    simp [Geom.draw, Brush.as_brush_or_brushref, Scene.emit, htex]

/-- C8: for both handled fit modes `new_image` succeeds and its shape is the
axis-aligned rectangle with corners `(x - width/2, y - height/2)` and
`(x + width/2, y + height/2)` — centered at `(x, y)` with exactly the
requested extent, independent of the image's dimensions — and it stores the
supplied object transform. -/
theorem c8_image_shape (img : Image) (x y w h : ℚ) (tr : Affine)
    (fit : ImageFitMode) (hfit : fit = .Original ∨ fit = .Fill) :
    ∃ g : Geom Rectangle, new_image img x y w h tr fit = some g ∧
      g.shape = ⟨⟨x - w / 2, y - h / 2⟩, ⟨x + w / 2, y + h / 2⟩⟩ ∧
      g.transform = tr := by
  rcases hfit with rfl | rfl
  · exact ⟨_, rfl, rfl, rfl⟩
  · exact ⟨_, rfl, rfl, rfl⟩

/-- C8 witness at a concrete image and target rectangle under `Fill`. -/
theorem c8_image_shape_witness :
    ((ImageFitMode.Fill = ImageFitMode.Original ∨ ImageFitMode.Fill = ImageFitMode.Fill) ∧
      ∃ g : Geom Rectangle, new_image imgEx 3 4 10 6 Affine.identity .Fill = some g ∧
        g.shape = ⟨⟨3 - 10 / 2, 4 - 6 / 2⟩, ⟨3 + 10 / 2, 4 + 6 / 2⟩⟩ ∧
        g.transform = Affine.identity) :=
  ⟨Or.inr rfl, c8_image_shape imgEx 3 4 10 6 Affine.identity .Fill (Or.inr rfl)⟩

/-- C9: the layout pen of `FormatedText::draw` does not start at `(x, y)` but
at `(x * 2, y * 2)`: the emitted glyph run is laid out from the doubled
coordinates, and when the text starts with a non-newline character the first
glyph sits at exactly `(x * 2, y * 2)`. -/
theorem c9_pen_doubled {W St : Type} (t : FormatedText W St) (o : FontOracle)
    (scene : Scene) :
    (t.draw o scene).backend.vello_scene.getLast?.bind Cmd.glyphsOf =
      some (glyphWalk o (lineHeight o) t.text (t.x * 2) (t.y * 2)).1 ∧
    (∀ (ch : Char) (cs : List Char), t.text = ch :: cs → ch ≠ '\n' →
      (glyphWalk o (lineHeight o) t.text (t.x * 2) (t.y * 2)).1.head? =
        some ⟨(o.charmapMap ch).getD 0, t.x * 2, t.y * 2⟩) := by
  constructor
  · simp [FormatedText.draw, textLayout, emit_getLast, Cmd.glyphsOf]
  · intro ch cs htext hch
    rw [htext]
    simp [glyphWalk, hch]

/-- C9 witness: `"A"` at `(3, 5)` lays its glyph out at `(6, 10)`. -/
theorem c9_pen_doubled_witness :
    ((textEx.draw oracleEx (Scene.new colorA 10 10)).backend.vello_scene.getLast?.bind
        Cmd.glyphsOf =
      some (glyphWalk oracleEx (lineHeight oracleEx) textEx.text
        (textEx.x * 2) (textEx.y * 2)).1 ∧
    (glyphWalk oracleEx (lineHeight oracleEx) textEx.text
        (textEx.x * 2) (textEx.y * 2)).1.head? =
      some ⟨(oracleEx.charmapMap 'A').getD 0, textEx.x * 2, textEx.y * 2⟩ ∧
    (glyphWalk oracleEx (lineHeight oracleEx) textEx.text
        (textEx.x * 2) (textEx.y * 2)).1 = [⟨7, 6, 10⟩]) :=
  ⟨(c9_pen_doubled textEx oracleEx (Scene.new colorA 10 10)).1,
   (c9_pen_doubled textEx oracleEx (Scene.new colorA 10 10)).2 'A' [] rfl (by decide),
   by norm_num [glyphWalk, textEx, oracleEx,
     if_neg (show ('A' : Char) ≠ '\n' by decide)]⟩

/-- C10: the backend output of `FormatedText::draw` is independent of the
`weight` and `style` fields — the draw never reads them and hard-codes the
variable-font axes to `wght = 100`, `wdth = 500` — so two texts differing only
in those fields produce identical scenes, and the emitted glyph run carries
the hard-coded coordinates. -/
theorem c10_weight_style_independent {W St : Type} (t : FormatedText W St)
    (w' : W) (s' : St) (o : FontOracle) (scene : Scene) :
    FormatedText.draw { t with weight := w', style := s' } o scene =
      t.draw o scene ∧
    (t.draw o scene).backend.vello_scene.getLast?.bind Cmd.coordsOf =
      some variations ∧
    variations = [("wght", 100), ("wdth", 500)] := by
  refine ⟨rfl, ?_, rfl⟩
  simp [FormatedText.draw, emit_getLast, Cmd.coordsOf]

end Renderer
